import Mathlib

/-!
Verification of the zettelkasten-note-processor pipeline.

This file gives a shallow embedding, in Lean 4, of the parse-and-render
pipeline of the repository (the `ZettelkastenParser`, the field decoders,
`MarkdownFormatter._slugify`, `Note.get_filename`, and
`ZettelkastenProcessor.format` / `save_individual`), and proves or refutes
the frozen claims about it.

Embedding conventions:
- Python strings are Lean `String`s; the scanning primitives (`str.strip`,
  `str.split`, `str.replace`, the regular-expression substitutions used by
  the code) are re-implemented on `List Char` so that every definition is
  executable by the kernel.
- Character classes (`\w`, `\s`, `str.lower`) are modelled at their ASCII
  meaning; every concrete input used in a theorem below is ASCII, where the
  Python semantics and this model agree.
- The XML layer (`xml.etree.ElementTree`) is an external library; documents
  enter the model as already-built element trees (`XTree`), with `text`,
  attributes and children as in ElementTree.  `datetime.now()` is a
  stateful input and is passed explicitly as the `now` argument.
- The filesystem seen by `save_individual` is modelled as the list of paths
  that currently exist; writing a file adds its path.
-/

/-- ASCII model of Python `str.isspace` characters / the regex class `\s`:
space, tab, newline, carriage return, vertical tab, form feed. -/
def isPyWs (c : Char) : Bool :=
  c = ' ' || c = '\t' || c = '\n' || c = '\r' || c = '\x0b' || c = '\x0c'

/-- Drop characters satisfying `p` from both ends of a character list
(the semantics of Python `str.strip`). -/
def stripBy (p : Char → Bool) (l : List Char) : List Char :=
  ((l.dropWhile p).reverse.dropWhile p).reverse

/-- Python `str.strip()`: remove surrounding whitespace. -/
def pyStrip (s : String) : String :=
  (stripBy isPyWs s.data).asString

/-- Python `str.strip(c)` for a single strip character `c`. -/
def pyStripChar (c : Char) (s : String) : String :=
  (stripBy (fun d => d = c) s.data).asString

/-- Helper for `pySplit`: scan the text, cutting at each non-overlapping
occurrence of the (non-empty) separator, leftmost first.  `fuel` bounds the
recursion and is instantiated with the length of the text, which suffices
because every step consumes at least one character. -/
def pySplitGo (sep : List Char) : Nat → List Char → List (List Char)
  | _, [] => [[]]
  | 0, l => [l]
  | fuel + 1, c :: rest =>
    if List.isPrefixOf sep (c :: rest) then
      [] :: pySplitGo sep fuel ((c :: rest).drop sep.length)
    else
      match pySplitGo sep fuel rest with
      | [] => [[c]]
      | t :: ts => (c :: t) :: ts

/-- Python `str.split(sep)` for a non-empty separator. -/
def pySplit (sep : String) (s : String) : List String :=
  (pySplitGo sep.data s.data.length s.data).map List.asString

/-- Helper for `pyReplace`: replace each non-overlapping occurrence of the
(non-empty) pattern, scanning left to right. -/
def pyReplaceGo (pat rep : List Char) : Nat → List Char → List Char
  | _, [] => []
  | 0, l => l
  | fuel + 1, c :: rest =>
    if List.isPrefixOf pat (c :: rest) then
      rep ++ pyReplaceGo pat rep fuel ((c :: rest).drop pat.length)
    else
      c :: pyReplaceGo pat rep fuel rest

/-- Python `str.replace(pat, rep)` for a non-empty pattern. -/
def pyReplace (s pat rep : String) : String :=
  (pyReplaceGo pat.data rep.data s.data.length s.data).asString

/-- Python `needle in haystack` (substring containment) on character lists. -/
def containsSubList (needle : List Char) : List Char → Bool
  | [] => List.isPrefixOf needle []
  | c :: rest => List.isPrefixOf needle (c :: rest) || containsSubList needle rest

/-- Python `needle in haystack` (substring containment). -/
def containsSub (haystack needle : String) : Bool :=
  containsSubList needle.data haystack.data

/-- The ASCII uppercase-to-lowercase table behind the model of
Python `str.lower`. -/
def lowerPairs : List (Char × Char) :=
  [('A','a'), ('B','b'), ('C','c'), ('D','d'), ('E','e'), ('F','f'), ('G','g'),
   ('H','h'), ('I','i'), ('J','j'), ('K','k'), ('L','l'), ('M','m'), ('N','n'),
   ('O','o'), ('P','p'), ('Q','q'), ('R','r'), ('S','s'), ('T','t'), ('U','u'),
   ('V','v'), ('W','w'), ('X','x'), ('Y','y'), ('Z','z')]

/-- ASCII model of Python `str.lower` on one character. -/
def lowerChar (c : Char) : Char := (lowerPairs.lookup c).getD c

/-- ASCII model of Python `str.lower`. -/
def pyLower (s : String) : String := (s.data.map lowerChar).asString

/-- ASCII model of the regex class `\w`: letters, digits, underscore. -/
def isWordChar (c : Char) : Bool := c.isAlphanum || c = '_'

/-- Decimal digit character, for rendering numbers as Python `str` does. -/
def digitChar (n : Nat) : Char := Char.ofNat (48 + n)

/-- Decimal rendering of a natural number (digit list); `fuel` bounds the
recursion, `n + 1` always suffices. -/
def natDecAux : Nat → Nat → List Char
  | 0, _ => []
  | fuel + 1, n =>
    if n < 10 then [digitChar n] else natDecAux fuel (n / 10) ++ [digitChar (n % 10)]

/-- Decimal rendering of a natural number, the model of Python `str(n)` /
`f"{n}"` for `n : Nat`. -/
def natDec (n : Nat) : String := (natDecAux (n + 1) n).asString

/-- Python `f"{n:03d}"` for `n : Nat`: the decimal rendering left-padded
with zeros to width three. -/
def pad3 (n : Nat) : String :=
  let s := natDec n
  if s.length ≥ 3 then s
  else (List.replicate (3 - s.length) '0').asString ++ s

/-- Numeric value of a digit character (inverse of `digitChar` on 0..9). -/
def digitVal (c : Char) : Nat := c.toNat - 48

/-- Numeric value of a digit-character list, used to invert `natDec`. -/
def digitsVal (l : List Char) : Nat := l.foldl (fun a c => 10 * a + digitVal c) 0

theorem digitsVal_append (l : List Char) (c : Char) :
    digitsVal (l ++ [c]) = 10 * digitsVal l + digitVal c := by
  simp [digitsVal, List.foldl_append]

theorem digitVal_digitChar (n : Nat) (h : n < 10) : digitVal (digitChar n) = n := by
  interval_cases n <;> decide

theorem natDecAux_fuel (fuel n : Nat) (h : n < fuel) :
    natDecAux fuel n = natDecAux (n + 1) n := by
  induction fuel using Nat.strong_induction_on generalizing n with
  | _ fuel ih =>
    match fuel, h with
    | fuel + 1, h =>
      by_cases h10 : n < 10
      · simp [natDecAux, h10]
      · have hd : n / 10 < fuel := by omega
        have hn : n / 10 < n := by omega
        have hrhs : natDecAux (n + 1) n = natDecAux n (n / 10) ++ [digitChar (n % 10)] := by
          simp [natDecAux, h10]
        simp only [natDecAux, h10, if_false, hrhs]
        congr 1
        rw [ih fuel (by omega) _ hd, ih n h _ hn]

theorem digitsVal_natDecAux (n : Nat) :
    digitsVal (natDecAux (n + 1) n) = n := by
  induction n using Nat.strong_induction_on with
  | _ n ih =>
    by_cases h10 : n < 10
    · simp only [natDecAux, h10, if_true]
      simp [digitsVal, digitVal_digitChar n h10]
    · simp only [natDecAux, h10, if_false]
      rw [natDecAux_fuel n (n / 10) (by omega)]
      rw [digitsVal_append]
      rw [ih (n / 10) (by omega)]
      rw [digitVal_digitChar _ (by omega)]
      omega

theorem natDec_inj {m n : Nat} (h : natDec m = natDec n) : m = n := by
  have hm : digitsVal (natDecAux (m + 1) m) = m := digitsVal_natDecAux m
  have hn : digitsVal (natDecAux (n + 1) n) = n := digitsVal_natDecAux n
  have hl : (natDecAux (m + 1) m) = (natDecAux (n + 1) n) := by
    have := congrArg String.data h
    simpa [natDec] using this
  rw [hl] at hm
  omega

theorem string_append_left_cancel {a x y : String} (h : a ++ x = a ++ y) : x = y := by
  have hd : a.data ++ x.data = a.data ++ y.data := by
    have := congrArg String.data h
    simpa [String.data_append] using this
  have := List.append_cancel_left hd
  cases x; cases y; simp_all

theorem string_append_right_cancel {a x y : String} (h : x ++ a = y ++ a) : x = y := by
  have hd : x.data ++ a.data = y.data ++ a.data := by
    have := congrArg String.data h
    simpa [String.data_append] using this
  have := List.append_cancel_right hd
  cases x; cases y; simp_all

/-! ## The element-tree model of parsed XML documents

`XTree` mirrors `xml.etree.ElementTree.Element`: a tag, the attribute list,
the text appearing before the first child (`None` when absent, as in
ElementTree), and the child elements in document order.  The mutual
`XForest` type makes all the traversals below structurally recursive. -/

mutual
inductive XTree where
  | mk (tag : String) (attrs : List (String × String)) (text : Option String)
      (children : XForest)
inductive XForest where
  | nil
  | cons (t : XTree) (f : XForest)
end

def XTree.tag : XTree → String
  | .mk t _ _ _ => t

def XTree.attrs : XTree → List (String × String)
  | .mk _ a _ _ => a

def XTree.text : XTree → Option String
  | .mk _ _ tx _ => tx

def XTree.children : XTree → XForest
  | .mk _ _ _ ch => ch

def XForest.toList : XForest → List XTree
  | .nil => []
  | .cons t f => t :: XForest.toList f

def XForest.ofList : List XTree → XForest
  | [] => .nil
  | t :: rest => .cons t (XForest.ofList rest)

/-- `Element.find(tag)` for a plain tag: first direct child with that tag. -/
def XTree.findChild (el : XTree) (t : String) : Option XTree :=
  el.children.toList.find? (fun c => c.tag = t)

/-- `Element.findall(tag)` for a plain tag: all direct children with that
tag, in document order. -/
def XTree.findAllChildren (el : XTree) (t : String) : List XTree :=
  el.children.toList.filter (fun c => c.tag = t)

/-- `Element.find(".//tag")`: the first descendant with the given tag, in
document order (each subtree is visited root-first). -/
def findInForest (target : String) : XForest → Option XTree
  | .nil => none
  | .cons (.mk tg a tx ch) rest =>
    if tg = target then some (.mk tg a tx ch)
    else
      match findInForest target ch with
      | some r => some r
      | none => findInForest target rest

def XTree.findDesc (el : XTree) (target : String) : Option XTree :=
  findInForest target el.children

/-- `Element.get(key, default)`: attribute lookup. -/
def XTree.getAttr (el : XTree) (key : String) (dflt : String) : String :=
  match el.attrs.find? (fun p => p.1 = key) with
  | some p => p.2
  | none => dflt

/-! ## The canonical record types (dataclasses of `noter.py`) -/

structure Note where
  title : String
  tags : List String
  mentions : List String
  connections : List String
  principle : String
  content : String
  evidence : String
  why_it_matters : String
  recall_question : String
  id : Option String := none
  created_at : Option String := none
  author : Option String := none
  reference : Option String := none
  chapter : Option String := none
deriving DecidableEq, Repr

structure Gap where
  gap_type : String
  missing_element : String
  why_it_matters : String
  source_location : String
  suggested_note_title : String
deriving DecidableEq, Repr

structure CoverageAssessment where
  pillars_captured : String
  causal_chains_captured : String
  meta_argument_captured : String
  overall_signal_capture : String
deriving DecidableEq, Repr

structure GapAnalysis where
  coverage : CoverageAssessment
  gaps : List Gap
  verdict : String
  recommendation : String
deriving DecidableEq, Repr

/-! ## Field decoders (`ZettelkastenParser` helpers, identical in
`noter.py`, `noter-extr.py` and `src/core/parser.py`) -/

/-- `ZettelkastenParser._get_text`: trimmed text of the first direct child
with the given tag, or the empty string. -/
def getText (parent : Option XTree) (tag : String) : String :=
  match parent with
  | none => ""
  | some p =>
    match p.findChild tag with
    | none => ""
    | some el => pyStrip (el.text.getD "")

/-- `ZettelkastenParser._parse_pipe_list`. -/
def parsePipeList (text : String) : List String :=
  if text = "" ∨ text = "[NO_MENTIONS]" then []
  else ((pySplit "|" text).map pyStrip).filter (fun item => item ≠ "")

/-- One iteration of the `_parse_mentions` loop: keep a piece that already
starts with `@`, prefix `@` to a non-empty piece, drop an empty piece. -/
def mentionPiece (raw : String) : Option String :=
  let item := pyStrip raw
  if List.isPrefixOf ['@'] item.data = true then some item
  else if item ≠ "" then some ("@" ++ item)
  else none

/-- `ZettelkastenParser._parse_mentions`. -/
def parseMentions (text : String) : List String :=
  if text = "" ∨ text = "[NO_MENTIONS]" then []
  else (pySplit "|" text).filterMap mentionPiece

/-- One match step of the regex `\[\[([^\]]+)\]\]`: given the characters
after an opening `[[`, the capture is one or more non-`]` characters
followed by `]]`. -/
def grabConn (l : List Char) : Option (List Char × List Char) :=
  let content := l.takeWhile (fun c => c ≠ ']')
  match content, l.dropWhile (fun c => c ≠ ']') with
  | [], _ => none
  | cont, ']' :: ']' :: r => some (cont, r)
  | _, _ => none

/-- `re.findall(r'\[\[([^\]]+)\]\]', text)`: scan for non-overlapping
matches, leftmost first.  `fuel` bounds the recursion; the text length
suffices since every step consumes at least one character. -/
def connScan : Nat → List Char → List (List Char)
  | 0, _ => []
  | _ + 1, [] => []
  | fuel + 1, '[' :: '[' :: rest =>
    match grabConn rest with
    | some (content, r) => content :: connScan fuel r
    | none => connScan fuel ('[' :: rest)
  | fuel + 1, _ :: rest => connScan fuel rest

/-- `ZettelkastenParser._parse_connections`. -/
def parseConnections (text : String) : List String :=
  if text = "" then []
  else (connScan text.data.length text.data).map (fun m => pyStrip m.asString)

/-- `ZettelkastenParser._parse_content`: token substitution for `[BREAK]`
and `[BULLET]`, then trim. -/
def parseContent (text : String) : String :=
  if text = "" then ""
  else
    pyStrip (pyReplace (pyReplace (pyReplace text "[BREAK]" "\n\n")
      "[BULLET] " "\n• ") "[BULLET]" "\n• ")

/-! ## The model builder (`_parse_notes`, `_parse_gap_analysis`, `parse`) -/

/-- Indexed map mirroring Python `enumerate(xs, start)`. -/
def mapWithIdx {α β : Type} (f : Nat → α → β) : Nat → List α → List β
  | _, [] => []
  | i, a :: rest => f i a :: mapWithIdx f (i + 1) rest

/-- One iteration of the `_parse_notes` loop: the `Note` built from the
`idx`-th (1-based) `note` element with the shared timestamp. -/
def mkNote (idx : Nat) (now : String) (el : XTree) : Note :=
  { id := some ("note_" ++ pad3 idx)
    created_at := some now
    title := getText (some el) "title"
    tags := parsePipeList (getText (some el) "tags")
    mentions := parseMentions (getText (some el) "mentions")
    connections := parseConnections (getText (some el) "connections")
    principle := getText (some el) "principle"
    content := parseContent (getText (some el) "content")
    evidence := getText (some el) "evidence"
    why_it_matters := getText (some el) "why_it_matters"
    recall_question := getText (some el) "recall_question" }

/-- `ZettelkastenParser._parse_notes`: iterate the direct `note` children in
document order with ids counted from 1; `now` is the single timestamp
captured before the loop. -/
def parseNotes (root : XTree) (now : String) : List Note :=
  mapWithIdx (fun idx el => mkNote idx now el) 1 (root.findAllChildren "note")

/-- One iteration of the `_parse_gap_analysis` gap loop. -/
def mkGap (el : XTree) : Gap :=
  { gap_type := el.getAttr "type" "Unknown"
    missing_element := getText (some el) "missing_element"
    why_it_matters := getText (some el) "why_it_matters"
    source_location := getText (some el) "source_location"
    suggested_note_title := getText (some el) "suggested_note_title" }

/-- Python truthiness of an `Element.text` value: `None` and `""` are falsy. -/
def textTruthy : Option String → Bool
  | none => false
  | some s => s ≠ ""

/-- `ZettelkastenParser._parse_gap_analysis` (from `noter-extr.py`). -/
def parseGapAnalysis (root : XTree) : GapAnalysis :=
  let coverage_elem := root.findChild "coverage_assessment"
  let coverage : CoverageAssessment :=
    { pillars_captured := getText coverage_elem "pillars_captured"
      causal_chains_captured := getText coverage_elem "causal_chains_captured"
      meta_argument_captured := getText coverage_elem "meta_argument_captured"
      overall_signal_capture := getText coverage_elem "overall_signal_capture" }
  let gaps : List Gap :=
    match root.findChild "critical_gaps" with
    | none => []
    | some cg =>
      if textTruthy cg.text = true ∧
          containsSub (cg.text.getD "") "[NONE_IDENTIFIED]" = false then
        (cg.findAllChildren "gap").map mkGap
      else []
  { coverage := coverage
    gaps := gaps
    verdict := getText (some root) "verdict"
    recommendation := getText (some root) "recommendation" }

/-- The two payload shapes returned by `ZettelkastenParser.parse`. -/
inductive ParseData where
  | notesData (l : List Note)
  | gapData (g : GapAnalysis)
deriving DecidableEq, Repr

/-- `ZettelkastenParser.parse` of `noter-extr.py`, after the XML text has
been read into a tree: mode detection over the root tag, then over the
descendants, and the `Unknown root element` failure.  Errors are the
`ValueError` messages of the source. -/
def zparse (root : XTree) (now : String) : Except String ParseData :=
  if root.tag = "notes" then .ok (.notesData (parseNotes root now))
  else if root.tag = "gap_analysis" then .ok (.gapData (parseGapAnalysis root))
  else
    match root.findDesc "notes" with
    | some notes_elem => .ok (.notesData (parseNotes notes_elem now))
    | none =>
      match root.findDesc "gap_analysis" with
      | some gap_elem => .ok (.gapData (parseGapAnalysis gap_elem))
      | none => .error ("Unknown root element: " ++ root.tag)

/-! ## The sanitizer (`ZettelkastenParser._clean_xml`)

`_clean_xml` applies, in order,
`re.sub(r'^```xml?\s*\n?', '', text, flags=re.MULTILINE)`,
`re.sub(r'\n?```\s*$', '', text, flags=re.MULTILINE)`, and `str.strip()`.
Both substitutions replace every non-overlapping match, scanning left to
right; the scanners below hand-compile those two concrete patterns with
Python backtracking semantics (`\s*` greedy, then backtracking until the
anchor matches). -/

/-- Try the pattern `^```xml?\s*\n?` at a line-start position.  On a match,
returns the remaining text together with whether the scan resumes at a line
start (`^` holds at the resume position iff the last consumed character is a
newline).  `x` and `m` are mandatory — `?` applies only to the `l`. -/
def matchFenceOpen : List Char → Option (Bool × List Char)
  | c1 :: c2 :: c3 :: c4 :: c5 :: r =>
    if c1 = '`' ∧ c2 = '`' ∧ c3 = '`' ∧ c4 = 'x' ∧ c5 = 'm' then
      let r2 := match r with
        | 'l' :: r1 => r1
        | _ => r
      let ws := r2.takeWhile isPyWs
      let rest := r2.dropWhile isPyWs
      some (ws.getLast? == some '\n', rest)
    else none
  | _ => none

/-- `re.sub(r'^```xml?\s*\n?', '', text, flags=re.MULTILINE)`: scan the text
tracking whether the position is a line start, removing every match. -/
def sub1Aux : Nat → Bool → List Char → List Char
  | 0, _, l => l
  | fuel + 1, bol, l =>
    match l with
    | [] => []
    | c :: rest =>
      if bol then
        match matchFenceOpen (c :: rest) with
        | some (nb, r) => sub1Aux fuel nb r
        | none => c :: sub1Aux fuel (c == '\n') rest
      else c :: sub1Aux fuel (c == '\n') rest

/-- The suffix of `l` starting at its last newline, or `none` if `l` has no
newline. -/
def suffixFromLastNl (l : List Char) : Option (List Char) :=
  if l.contains '\n' then
    some ('\n' :: (l.reverse.takeWhile (fun c => c ≠ '\n')).reverse)
  else none

/-- Finish the pattern `\n?```\s*$` after the backticks: `\s*` is greedy and
backtracks until `$` (end of text or just before a newline) holds.  Returns
the remaining text after the match, or `none` when no amount of whitespace
reaches a line end. -/
def fenceCloseTail (l : List Char) : Option (List Char) :=
  let ws := l.takeWhile isPyWs
  let after := l.dropWhile isPyWs
  if after.isEmpty then some []
  else
    match suffixFromLastNl ws with
    | some tailPart => some (tailPart ++ after)
    | none => none

/-- Try the pattern `\n?```\s*$` at a position (`\n?` greedy). -/
def matchFenceClose : List Char → Option (List Char)
  | c1 :: c2 :: c3 :: c4 :: r =>
    if c1 = '\n' ∧ c2 = '`' ∧ c3 = '`' ∧ c4 = '`' then fenceCloseTail r
    else if c1 = '`' ∧ c2 = '`' ∧ c3 = '`' then fenceCloseTail (c4 :: r)
    else none
  | [c1, c2, c3] =>
    if c1 = '`' ∧ c2 = '`' ∧ c3 = '`' then fenceCloseTail [] else none
  | _ => none

/-- `re.sub(r'\n?```\s*$', '', text, flags=re.MULTILINE)`. -/
def sub2Aux : Nat → List Char → List Char
  | 0, l => l
  | fuel + 1, l =>
    match l with
    | [] => []
    | c :: rest =>
      match matchFenceClose (c :: rest) with
      | some r => sub2Aux fuel r
      | none => c :: sub2Aux fuel rest

/-- `ZettelkastenParser._clean_xml`: both fence substitutions, then trim. -/
def cleanXml (s : String) : String :=
  let s1 := sub1Aux s.data.length true s.data
  let s2 := sub2Aux s1.length s1
  pyStrip s2.asString

/-! ## Slugs, filenames and split-save (`MarkdownFormatter._slugify`,
`Note.get_filename`, `ZettelkastenProcessor.save_individual`) -/

/-- Replace every maximal run of characters satisfying `p` by the single
character `rep` (the effect of `re.sub(r'[p]+', rep, ·)`). -/
def collapseRunsAux (p : Char → Bool) (rep : Char) : Bool → List Char → List Char
  | _, [] => []
  | inRun, c :: rest =>
    if p c then
      if inRun then collapseRunsAux p rep true rest
      else rep :: collapseRunsAux p rep true rest
    else c :: collapseRunsAux p rep false rest

def collapseRuns (p : Char → Bool) (rep : Char) (l : List Char) : List Char :=
  collapseRunsAux p rep false l

/-- The regex class `[\s_]`. -/
def isSpaceUnd (c : Char) : Bool := isPyWs c || c = '_'

/-- The regex class `[^\w\s-]` is removed, i.e. these characters are kept. -/
def keepSlugChar (c : Char) : Bool := isWordChar c || isPyWs c || c = '-'

/-- `MarkdownFormatter._slugify`: lowercase, drop characters outside
`[\w\s-]`, collapse `[\s_]+` runs to `-`, trim `-` from the ends. -/
def slugify (text : String) : String :=
  let slug := (pyLower text).data
  let slug2 := slug.filter keepSlugChar
  let slug3 := collapseRuns isSpaceUnd '-' slug2
  pyStripChar '-' slug3.asString

/-- `Note.get_filename` of `noter.py` (and `src/core/__init__.py`): strip
`[^\w\s-]`, collapse `[\s_]+` to `-`, lowercase, truncate to 80 characters,
trim `-`, append the `.md` suffix. -/
def get_filename (title : String) : String :=
  let safe1 := title.data.filter keepSlugChar
  let safe2 := collapseRuns isSpaceUnd '-' safe1
  let safe3 := safe2.map lowerChar
  let safe4 := stripBy (fun c => c = '-') (safe3.take 80)
  safe4.asString ++ ".md"

/-- `pathlib.PurePath` stem/suffix of a single path component: split at the
last dot when it is neither the first nor the last character. -/
def pathSplitExt (name : String) : String × String :=
  if (name.data.reverse.takeWhile (fun c => c ≠ '.')).length = name.data.length then
    (name, "")
  else
    if 0 < name.data.length - 1 - (name.data.reverse.takeWhile (fun c => c ≠ '.')).length ∧
        name.data.length - 1 - (name.data.reverse.takeWhile (fun c => c ≠ '.')).length <
          name.data.length - 1 then
      ((name.data.take (name.data.length - 1 -
          (name.data.reverse.takeWhile (fun c => c ≠ '.')).length)).asString,
       (name.data.drop (name.data.length - 1 -
          (name.data.reverse.takeWhile (fun c => c ≠ '.')).length)).asString)
    else (name, "")

def pathStem (name : String) : String := (pathSplitExt name).1

def pathSuffix (name : String) : String := (pathSplitExt name).2

/-- The `while file_path.exists()` loop of `save_individual`: try
`{stem}_{counter}{suffix}` with increasing counters until the candidate is
not an existing path.  `fuel` bounds the loop; `fs.length + 1` suffices
because the candidates are pairwise distinct. -/
def resolveLoop (fs : List String) (dir stem sfx : String) : Nat → Nat → String
  | counter, 0 => dir ++ "/" ++ stem ++ "_" ++ natDec counter ++ sfx
  | counter, fuel + 1 =>
    if dir ++ "/" ++ stem ++ "_" ++ natDec counter ++ sfx ∈ fs then
      resolveLoop fs dir stem sfx (counter + 1) fuel
    else dir ++ "/" ++ stem ++ "_" ++ natDec counter ++ sfx

/-- The path chosen for one note file: the original `dir / filename` if it
does not exist, otherwise the first free suffixed candidate. -/
def choosePath (fs : List String) (dir filename : String) : String :=
  if dir ++ "/" ++ filename ∈ fs then
    resolveLoop fs dir (pathStem filename) (pathSuffix filename) 1 (fs.length + 1)
  else dir ++ "/" ++ filename

/-- The `save_individual` loop over the notes: each chosen path is written,
so later notes see it as existing.  Returns the saved paths in note order. -/
def saveIndivAux (dir : String) : List Note → List String → List String
  | [], _ => []
  | n :: rest, fs =>
    choosePath fs dir (get_filename n.title) ::
      saveIndivAux dir rest (choosePath fs dir (get_filename n.title) :: fs)

/-! ## The Markdown formatter and processor of `noter.py` -/

/-- Python `f"{x}"` for an `Optional[str]`: `None` prints as `None`. -/
def optShow : Option String → String
  | none => "None"
  | some s => s

/-- Python truthiness of an `Optional[str]` field. -/
def optTruthy : Option String → Bool
  | none => false
  | some s => s ≠ ""

/-- The tag character class rewritten to `_` by the frontmatter tag
formatting: `[\s.:;,?!@*+=~\\?<>|]`. -/
def isTagPunct (c : Char) : Bool :=
  isPyWs c || c = '.' || c = ':' || c = ';' || c = ',' || c = '?' || c = '!' ||
  c = '@' || c = '*' || c = '+' || c = '=' || c = '~' || c = '\\' ||
  c = '<' || c = '>' || c = '|'

/-- One `tags:` line of the frontmatter: `--` to `/`, punctuation to `_`,
underscore runs collapsed, edges trimmed; empty results dropped. -/
def fmtTagLine (tag : String) : Option String :=
  let t1 := pyReplace tag "--" "/"
  let t2 := t1.data.map (fun c => if isTagPunct c then '_' else c)
  let t3 := collapseRuns (fun c => c = '_') '_' t2
  let t4 := pyStripChar '_' t3.asString
  if t4 ≠ "" then some ("  - " ++ t4) else none

/-- `"\n".join(lines)`. -/
def joinNl : List String → String
  | [] => ""
  | [x] => x
  | x :: y :: rest => x ++ "\n" ++ joinNl (y :: rest)

/-- `MarkdownFormatter._format_single_note` of `noter.py`. -/
def formatSingleNote (include_title_header : Bool) (note : Note) : String :=
  joinNl (
    (if include_title_header then ["## " ++ note.title, ""] else [])
    ++ ["---", "title: \"" ++ note.title ++ "\""]
    ++ (match note.author with
        | some a => if a ≠ "" then ["author: \"" ++ a ++ "\""] else []
        | none => [])
    ++ (match note.reference with
        | some r => if r ≠ "" then ["reference: \"" ++ r ++ "\""] else []
        | none => [])
    ++ (match note.chapter with
        | some c => if c ≠ "" then ["chapter: \"" ++ c ++ "\""] else []
        | none => [])
    ++ ["created: " ++ optShow note.created_at]
    ++ (if note.tags ≠ [] then "tags:" :: note.tags.filterMap fmtTagLine else [])
    ++ (if note.mentions ≠ [] then
          "mentions:" :: note.mentions.map (fun m =>
            "  - \"[[" ++ (m.data.dropWhile (fun c => c = '@')).asString ++ "]]\"")
        else [])
    ++ (if note.connections ≠ [] then
          "connections:" :: note.connections.map (fun c => "  - \"[[" ++ c ++ "]]\"")
        else [])
    ++ ["---", "", "### 💡 Core Principle", "", "> " ++ note.principle, "",
        "### 📝 Content", "", note.content, "", "### 📚 Evidence", ""]
    ++ [if note.evidence = "[NO_DIRECT_EVIDENCE]"
        then "*No direct evidence provided in source.*"
        else "> " ++ note.evidence]
    ++ ["", "### 🎯 Why It Matters", "", note.why_it_matters, "",
        "### ❓ Recall Question", "", "**Q:** " ++ note.recall_question, "", "---"])

/-- `MarkdownFormatter.format_notes` of `noter.py`; `now` is the render-time
`datetime.now().strftime('%Y-%m-%d %H:%M')` string. -/
def formatNotes (notes : List Note) (now : String) : String :=
  joinNl (
    ["# Zettelkasten Notes", "", "> **Generated:** " ++ now ++ "  ",
     "> **Total Notes:** " ++ natDec notes.length, "", "---", "",
     "## Table of Contents", ""]
    ++ mapWithIdx (fun i note =>
         natDec i ++ ". [" ++ note.title ++ "](#" ++ slugify note.title ++ ")") 1 notes
    ++ ["", "---", ""]
    ++ (notes.map (fun note => [formatSingleNote true note, ""])).flatten)

/-- The state of `ZettelkastenProcessor` of `noter.py`: the notes list,
initialised empty by `__init__`. -/
structure ZProcessor where
  notes : List Note
deriving DecidableEq, Repr

/-- `ZettelkastenProcessor.__init__` leaves `self.notes = []`. -/
def ZProcessor.init : ZProcessor := ⟨[]⟩

/-- `ZettelkastenProcessor.parse` via `ZettelkastenParser.parse` of
`noter.py`: the root itself if tagged `notes`, else the first `notes`
descendant; error when neither exists. -/
def ZProcessor.parse (root : XTree) (now : String) : Except String ZProcessor :=
  match (if root.tag = "notes" then some root else root.findDesc "notes") with
  | none => .error "No <notes> element found in XML"
  | some notes_elem => .ok ⟨parseNotes notes_elem now⟩

/-- `ZettelkastenProcessor.format` of `noter.py`: raises `ValueError` when
`self.notes` is falsy, else renders the combined Markdown. -/
def ZProcessor.format (p : ZProcessor) (now : String) : Except String String :=
  if p.notes = [] then .error "No notes parsed. Call parse() first."
  else .ok (formatNotes p.notes now)

/-- `ZettelkastenProcessor.save_individual` of `noter.py`: the same guard as
`format`, then the collision-avoiding write loop. -/
def ZProcessor.save_individual (p : ZProcessor) (fs : List String) (dir : String) :
    Except String (List String) :=
  if p.notes = [] then .error "No notes parsed. Call parse() first."
  else .ok (saveIndivAux dir p.notes fs)

/-! ## General lemmas about the string primitives -/

theorem dropWhile_idem (p : Char → Bool) (l : List Char) :
    (l.dropWhile p).dropWhile p = l.dropWhile p := by
  induction l with
  | nil => rfl
  | cons c rest ih =>
    by_cases hc : p c
    · simp [List.dropWhile, hc, ih]
    · simp [List.dropWhile, hc]

theorem dropWhile_eq_self_of_head (p : Char → Bool) (c : Char) (l : List Char)
    (hc : ¬ p c) : (c :: l).dropWhile p = c :: l := by
  simp [List.dropWhile, hc]

/-- Front-trimmed lists stay front-trimmed after back-trimming. -/
theorem dropWhile_rev_dropWhile (p : Char → Bool) (x : List Char)
    (hx : x.dropWhile p = x) :
    ((x.reverse.dropWhile p).reverse).dropWhile p = (x.reverse.dropWhile p).reverse := by
  match x, hx with
  | [], _ => simp
  | c :: rest, hx =>
    have hc : ¬ p c := by
      by_contra hpc
      simp only [List.dropWhile, hpc] at hx
      have := congrArg List.length hx
      simp at this
      have hle := (List.dropWhile_sublist (l := rest) p).length_le
      omega
    rw [List.reverse_cons, List.dropWhile_append]
    by_cases he : (rest.reverse.dropWhile p).isEmpty = true
    · rw [if_pos he]
      simp [List.dropWhile, hc]
    · rw [if_neg he]
      rw [List.reverse_append]
      simp only [List.reverse_cons, List.reverse_nil, List.nil_append, List.singleton_append]
      exact dropWhile_eq_self_of_head p c _ hc

theorem stripBy_idem (p : Char → Bool) (l : List Char) :
    stripBy p (stripBy p l) = stripBy p l := by
  unfold stripBy
  have hF : (l.dropWhile p).dropWhile p = l.dropWhile p := dropWhile_idem p l
  have hzF := dropWhile_rev_dropWhile p (l.dropWhile p) hF
  rw [hzF]
  rw [List.reverse_reverse]
  rw [dropWhile_idem]

theorem mem_stripBy (p : Char → Bool) (l : List Char) (c : Char)
    (h : c ∈ stripBy p l) : c ∈ l := by
  unfold stripBy at h
  rw [List.mem_reverse] at h
  have h2 := (List.dropWhile_sublist (l := (l.dropWhile p).reverse) p).mem h
  rw [List.mem_reverse] at h2
  exact (List.dropWhile_sublist (l := l) p).mem h2

theorem stripBy_eq_nil (p : Char → Bool) (l : List Char) (h : ∀ c ∈ l, p c) :
    stripBy p l = [] := by
  unfold stripBy
  have : l.dropWhile p = [] := List.dropWhile_eq_nil_iff.mpr h
  simp [this]

theorem mem_collapseRunsAux (p : Char → Bool) (rep : Char) (b : Bool) (l : List Char)
    (c : Char) (h : c ∈ collapseRunsAux p rep b l) :
    c = rep ∨ (c ∈ l ∧ ¬ p c) := by
  induction l generalizing b with
  | nil => simp [collapseRunsAux] at h
  | cons d rest ih =>
    by_cases hd : p d
    · simp only [collapseRunsAux, hd, if_true] at h
      by_cases hb : b
      · subst hb
        rcases ih true h with h1 | h2
        · exact Or.inl h1
        · exact Or.inr ⟨List.mem_cons_of_mem _ h2.1, h2.2⟩
      · simp only [Bool.not_eq_true] at hb
        subst hb
        simp only [Bool.false_eq_true, if_false] at h
        rcases List.mem_cons.mp h with h1 | h1
        · exact Or.inl h1
        · rcases ih true h1 with h2 | h3
          · exact Or.inl h2
          · exact Or.inr ⟨List.mem_cons_of_mem _ h3.1, h3.2⟩
    · simp only [collapseRunsAux, hd, if_false] at h
      rcases List.mem_cons.mp h with h1 | h1
      · subst h1
        exact Or.inr ⟨List.mem_cons_self _ _, hd⟩
      · rcases ih false h1 with h2 | h3
        · exact Or.inl h2
        · exact Or.inr ⟨List.mem_cons_of_mem _ h3.1, h3.2⟩

theorem collapseRunsAux_eq_self (p : Char → Bool) (rep : Char) (b : Bool) (l : List Char)
    (h : ∀ c ∈ l, ¬ p c) : collapseRunsAux p rep b l = l := by
  induction l generalizing b with
  | nil => rfl
  | cons d rest ih =>
    have hd : ¬ p d := h d (List.mem_cons_self _ _)
    simp only [collapseRunsAux, hd, Bool.false_eq_true, if_false]
    rw [ih false (fun c hc => h c (List.mem_cons_of_mem _ hc))]

theorem map_eq_self_of_fixed {α : Type} (f : α → α) (l : List α)
    (h : ∀ c ∈ l, f c = c) : l.map f = l := by
  induction l with
  | nil => rfl
  | cons d rest ih =>
    simp only [List.map_cons, h d (List.mem_cons_self _ _)]
    rw [ih (fun c hc => h c (List.mem_cons_of_mem _ hc))]

theorem lookup_mem_snd {α β : Type} [BEq α] [LawfulBEq α] (ps : List (α × β)) (c : α) (d : β)
    (h : ps.lookup c = some d) : d ∈ ps.map Prod.snd := by
  induction ps with
  | nil => simp [List.lookup] at h
  | cons p rest ih =>
    obtain ⟨k, v⟩ := p
    rw [List.lookup] at h
    cases hc : (c == k) with
    | true =>
      rw [hc] at h
      simp only [Option.some.injEq] at h
      subst h
      exact List.mem_cons_self _ _
    | false =>
      rw [hc] at h
      exact List.mem_cons_of_mem _ (ih h)

theorem lowerPairs_snd_fixed : ∀ d ∈ lowerPairs.map Prod.snd, lowerPairs.lookup d = none := by
  decide

theorem lowerChar_idem (c : Char) : lowerChar (lowerChar c) = lowerChar c := by
  unfold lowerChar
  cases h : lowerPairs.lookup c with
  | none => simp [h]
  | some d =>
    simp only [h, Option.getD_some]
    rw [lowerPairs_snd_fixed d (lookup_mem_snd _ _ _ h)]
    rfl

theorem mapWithIdx_length {α β : Type} (f : Nat → α → β) (s : Nat) (l : List α) :
    (mapWithIdx f s l).length = l.length := by
  induction l generalizing s with
  | nil => rfl
  | cons a rest ih => simp [mapWithIdx, ih]

theorem mapWithIdx_get {α β : Type} (f : Nat → α → β) (s : Nat) (l : List α)
    (i : Nat) (hi : i < l.length) :
    (mapWithIdx f s l).get ⟨i, by rw [mapWithIdx_length]; exact hi⟩ =
      f (s + i) (l.get ⟨i, hi⟩) := by
  induction l generalizing s i with
  | nil => exact absurd hi (by simp)
  | cons a rest ih =>
    cases i with
    | zero => simp [mapWithIdx]
    | succ j =>
      have hj : j < rest.length := by simpa using hi
      have := ih (s + 1) j hj
      simp only [mapWithIdx, List.get_cons_succ]
      rw [this]
      congr 1
      omega

theorem asString_append (l1 l2 : List Char) :
    l1.asString ++ l2.asString = (l1 ++ l2).asString := rfl

theorem asString_data (s : String) : s.data.asString = s := rfl

theorem string_ne_of_data_ne {x y : String} (h : x.data ≠ y.data) : x ≠ y := by
  intro he
  exact h (congrArg String.data he)

theorem string_append_ne {a x y : String} (h : x ≠ y) : a ++ x ≠ a ++ y := by
  intro he
  exact h (string_append_left_cancel he)

/-! ## Claim C3: `pipe_list` -/

/-- The spec-side description of `pipe_list` ("split on `|`, trim each
piece, drop empties"), stated as its own definition for comparison with the
source definition `parsePipeList`. -/
def specSplitTrimDrop (text : String) : List String :=
  ((pySplit "|" text).map pyStrip).filter (fun item => item ≠ "")

/-- C3 counterexample: the sentinel does not force an empty result
"regardless of surrounding content" — `pipe_list` compares the whole text
against `"[NO_MENTIONS]"` for equality, so `pipe_list("a|[NO_MENTIONS]")`
keeps both pieces rather than returning `[]`. -/
theorem c3_sentinel_counterexample :
    parsePipeList "a|[NO_MENTIONS]" = ["a", "[NO_MENTIONS]"] ∧
    ¬ parsePipeList "a|[NO_MENTIONS]" = [] := by
  refine ⟨by decide, by decide⟩

/-- C3 (amended): for every input text other than the exact sentinel,
`pipe_list` splits on `|`, trims each piece and drops empties; the sentinel
forces an empty result only when the text equals `"[NO_MENTIONS]"` exactly;
`pipe_list("[NO_MENTIONS]") == []` and `pipe_list("a | b |") == ["a","b"]`. -/
theorem c3_pipe_list (text : String) (h : text ≠ "[NO_MENTIONS]") :
    parsePipeList text = specSplitTrimDrop text ∧
    parsePipeList "[NO_MENTIONS]" = [] ∧
    parsePipeList "a | b |" = ["a", "b"] := by
  refine ⟨?_, by decide, by decide⟩
  by_cases ht : text = ""
  · subst ht; decide
  · simp [parsePipeList, specSplitTrimDrop, ht, h]

theorem c3_pipe_list_witness :
    parsePipeList "x|y" = specSplitTrimDrop "x|y" ∧
    parsePipeList "[NO_MENTIONS]" = [] ∧
    parsePipeList "a | b |" = ["a", "b"] :=
  c3_pipe_list "x|y" (by decide)

/-! ## Claim C8: `_slugify` -/

/-- C8: `slugify` is idempotent, and `slugify("Hello, World!")` is
`"hello-world"`.  (`slugify` lowercases, strips characters outside
`[\w\s-]`, collapses `[\s_]+` runs to a single hyphen, and trims hyphens
from the ends.) -/
theorem c8_slugify_idempotent (t : String) :
    slugify (slugify t) = slugify t ∧ slugify "Hello, World!" = "hello-world" := by
  refine ⟨?_, by decide⟩
  have hchar : ∀ c ∈ (slugify t).data,
      lowerChar c = c ∧ keepSlugChar c = true ∧ isSpaceUnd c = false := by
    intro c hc
    have hc2 : c ∈ collapseRuns isSpaceUnd '-' ((pyLower t).data.filter keepSlugChar) :=
      mem_stripBy _ _ _ hc
    rcases mem_collapseRunsAux _ _ _ _ _ hc2 with h1 | ⟨h2, h3⟩
    · subst h1
      exact ⟨by decide, by decide, by decide⟩
    · have h4 := List.mem_filter.mp h2
      refine ⟨?_, h4.2, by simpa using h3⟩
      rcases List.mem_map.mp (show c ∈ t.data.map lowerChar from h4.1) with ⟨d, _, hd⟩
      rw [← hd, lowerChar_idem]
  have h1 : pyLower (slugify t) = slugify t := by
    show ((slugify t).data.map lowerChar).asString = slugify t
    rw [map_eq_self_of_fixed lowerChar (slugify t).data (fun c hc => (hchar c hc).1)]
    rfl
  have h2 : (slugify t).data.filter keepSlugChar = (slugify t).data :=
    List.filter_eq_self.mpr (fun c hc => (hchar c hc).2.1)
  have h3 : collapseRuns isSpaceUnd '-' (slugify t).data = (slugify t).data :=
    collapseRunsAux_eq_self _ _ _ _ (fun c hc => by rw [(hchar c hc).2.2]; simp)
  show pyStripChar '-' ((collapseRuns isSpaceUnd '-'
      ((pyLower (slugify t)).data.filter keepSlugChar)).asString) = slugify t
  rw [h1, h2, h3]
  show (stripBy (fun d => d = '-') (slugify t).data).asString = slugify t
  have hu : (slugify t).data = stripBy (fun d => d = '-')
      (collapseRuns isSpaceUnd '-' ((pyLower t).data.filter keepSlugChar)) := rfl
  rw [hu, stripBy_idem]
  rfl

/-! ## Claim C1: `_parse_notes` -/

theorem parseNotes_length (root : XTree) (now : String) :
    (parseNotes root now).length = (root.findAllChildren "note").length :=
  mapWithIdx_length _ _ _

/-- C1: on a document whose root is tagged `notes` with N direct `note`
children, `parse` returns exactly those N records in document order, the
i-th (0-based) built from the i-th `note` child with id
`"note_" ++ pad3 (i+1)` (`note_001`, `note_002`, ...), and every record
carries the single `created_at` timestamp captured before the loop. -/
theorem c1_parse_count_ids (root : XTree) (now : String) (h : root.tag = "notes") :
    zparse root now = .ok (.notesData (parseNotes root now)) ∧
    (parseNotes root now).length = (root.findAllChildren "note").length ∧
    (∀ i (hi : i < (root.findAllChildren "note").length),
      (parseNotes root now).get ⟨i, by rw [parseNotes_length]; exact hi⟩ =
        mkNote (i + 1) now ((root.findAllChildren "note").get ⟨i, hi⟩) ∧
      ((parseNotes root now).get ⟨i, by rw [parseNotes_length]; exact hi⟩).id =
        some ("note_" ++ pad3 (i + 1)) ∧
      ((parseNotes root now).get ⟨i, by rw [parseNotes_length]; exact hi⟩).created_at =
        some now) := by
  refine ⟨by simp [zparse, h], parseNotes_length root now, ?_⟩
  intro i hi
  have hget : (parseNotes root now).get ⟨i, by rw [parseNotes_length]; exact hi⟩ =
      mkNote (i + 1) now ((root.findAllChildren "note").get ⟨i, hi⟩) := by
    have h0 := mapWithIdx_get (fun idx el => mkNote idx now el) 1
      (root.findAllChildren "note") i hi
    rw [Nat.add_comm 1 i] at h0
    exact h0
  exact ⟨hget, by rw [hget]; rfl, by rw [hget]; rfl⟩

def noteElA : XTree :=
  XTree.mk "note" [] none (XForest.ofList [XTree.mk "title" [] (some "Alpha") XForest.nil])

def noteElB : XTree :=
  XTree.mk "note" [] none (XForest.ofList [XTree.mk "title" [] (some "Beta") XForest.nil])

def notesDocAB : XTree := XTree.mk "notes" [] none (XForest.ofList [noteElA, noteElB])

theorem c1_parse_count_ids_witness :
    ((parseNotes notesDocAB "T1").get ⟨0, by decide⟩).id = some "note_001" ∧
    ((parseNotes notesDocAB "T1").get ⟨1, by decide⟩).id = some "note_002" ∧
    ((parseNotes notesDocAB "T1").get ⟨1, by decide⟩).created_at = some "T1" :=
  ⟨((c1_parse_count_ids notesDocAB "T1" rfl).2.2 0 (by decide)).2.1,
   ((c1_parse_count_ids notesDocAB "T1" rfl).2.2 1 (by decide)).2.1,
   ((c1_parse_count_ids notesDocAB "T1" rfl).2.2 1 (by decide)).2.2⟩

/-! ## Claim C2: mode detection and `UnknownRootError` -/

/-- C2: mode detection follows the fixed order — root tag `notes`, then
root tag `gap_analysis`, then the first `notes` descendant, then the first
`gap_analysis` descendant — and when none applies, `parse` fails with the
`Unknown root element` error naming the actual root tag. -/
theorem c2_mode_detection (root : XTree) (now : String) :
    (root.tag = "notes" → zparse root now = .ok (.notesData (parseNotes root now))) ∧
    (root.tag ≠ "notes" → root.tag = "gap_analysis" →
      zparse root now = .ok (.gapData (parseGapAnalysis root))) ∧
    (root.tag ≠ "notes" → root.tag ≠ "gap_analysis" →
      ∀ t, root.findDesc "notes" = some t →
        zparse root now = .ok (.notesData (parseNotes t now))) ∧
    (root.tag ≠ "notes" → root.tag ≠ "gap_analysis" →
      root.findDesc "notes" = none →
      ∀ g, root.findDesc "gap_analysis" = some g →
        zparse root now = .ok (.gapData (parseGapAnalysis g))) ∧
    (root.tag ≠ "notes" → root.tag ≠ "gap_analysis" →
      root.findDesc "notes" = none → root.findDesc "gap_analysis" = none →
      zparse root now = .error ("Unknown root element: " ++ root.tag)) := by
  refine ⟨?_, ?_, ?_, ?_, ?_⟩
  · intro h1
    simp [zparse, h1]
  · intro h1 h2
    simp [zparse, h1, h2]
  · intro h1 h2 t h3
    simp [zparse, h1, h2, h3]
  · intro h1 h2 h3 g h4
    simp [zparse, h1, h2, h3, h4]
  · intro h1 h2 h3 h4
    simp [zparse, h1, h2, h3, h4]

def unknownDoc : XTree :=
  XTree.mk "wrapper" [] none (XForest.ofList [XTree.mk "bar" [] (some "x") XForest.nil])

theorem c2_mode_detection_witness :
    zparse unknownDoc "T" = .error ("Unknown root element: " ++ "wrapper") :=
  (c2_mode_detection unknownDoc "T").2.2.2.2 (by decide) (by decide) (by rfl) (by rfl)

/-! ## Claim C4: no empty strings inside tags/mentions/connections -/

theorem string_ne_empty_of_data_cons {s : String} {c : Char} {t : List Char}
    (h : s.data = c :: t) : s ≠ "" := by
  intro he
  rw [he] at h
  exact List.noConfusion h

theorem parsePipeList_no_empty (text : String) :
    ∀ s ∈ parsePipeList text, s ≠ "" := by
  intro s hs
  unfold parsePipeList at hs
  by_cases h : text = "" ∨ text = "[NO_MENTIONS]"
  · rw [if_pos h] at hs
    simp at hs
  · rw [if_neg h] at hs
    have := List.mem_filter.mp hs
    simpa using this.2

theorem mentionPiece_no_empty (raw s : String) (h : mentionPiece raw = some s) :
    s ≠ "" := by
  unfold mentionPiece at h
  by_cases h1 : List.isPrefixOf ['@'] (pyStrip raw).data = true
  · rw [if_pos h1] at h
    simp only [Option.some.injEq] at h
    subst h
    match hd : (pyStrip raw).data, h1 with
    | c :: t, _ => exact string_ne_empty_of_data_cons hd
    | [], h1 => simp [List.isPrefixOf] at h1
  · rw [if_neg h1] at h
    by_cases h2 : pyStrip raw ≠ ""
    · rw [if_pos h2] at h
      simp only [Option.some.injEq] at h
      subst h
      apply string_ne_empty_of_data_cons
      show ("@" ++ pyStrip raw).data = '@' :: (pyStrip raw).data
      rfl
    · rw [if_neg h2] at h
      exact Option.noConfusion h

theorem parseMentions_no_empty (text : String) :
    ∀ s ∈ parseMentions text, s ≠ "" := by
  intro s hs
  unfold parseMentions at hs
  by_cases h : text = "" ∨ text = "[NO_MENTIONS]"
  · rw [if_pos h] at hs
    simp at hs
  · rw [if_neg h] at hs
    rcases List.mem_filterMap.mp hs with ⟨raw, _, hraw⟩
    exact mentionPiece_no_empty raw s hraw

def connNoteEl : XTree :=
  XTree.mk "note" [] none (XForest.ofList
    [XTree.mk "connections" [] (some "[[ ]]") XForest.nil])

/-- C4 counterexample: a note whose `connections` field is a whitespace-only
double-bracket span `[[ ]]` is parsed with the empty string as a connection
— `_parse_connections` strips each captured span and appends it without
checking for emptiness. -/
theorem c4_empty_connection_counterexample :
    (mkNote 1 "T" connNoteEl).connections = [""] ∧
    "" ∈ (mkNote 1 "T" connNoteEl).connections := by
  refine ⟨by decide, by decide⟩

/-- C4 (amended): in every parsed note, every element of `tags` and of
`mentions` is a non-empty string (whitespace-only pipe pieces are dropped by
both decoders); `connections` does not share the invariant — a
whitespace-only bracket span yields an empty string there. -/
theorem c4_no_empty_tags_mentions (el : XTree) (idx : Nat) (now : String) :
    (∀ s ∈ (mkNote idx now el).tags, s ≠ "") ∧
    (∀ s ∈ (mkNote idx now el).mentions, s ≠ "") :=
  ⟨parsePipeList_no_empty _, parseMentions_no_empty _⟩

def tagNoteEl : XTree :=
  XTree.mk "note" [] none (XForest.ofList
    [XTree.mk "tags" [] (some "a | b") XForest.nil,
     XTree.mk "mentions" [] (some "alice| ") XForest.nil])

theorem c4_no_empty_tags_mentions_witness :
    ("a" ∈ (mkNote 1 "T" tagNoteEl).tags ∧ "a" ≠ "") ∧
    ("@alice" ∈ (mkNote 1 "T" tagNoteEl).mentions ∧ "@alice" ≠ "") :=
  ⟨⟨by decide, (c4_no_empty_tags_mentions tagNoteEl 1 "T").1 "a" (by decide)⟩,
   ⟨by decide, (c4_no_empty_tags_mentions tagNoteEl 1 "T").2 "@alice" (by decide)⟩⟩

/-! ## Claim C6: the gap list of gap-analysis mode -/

def gapChildX : XTree := XTree.mk "gap" [("type", "Causal Chain")] none XForest.nil

def gapDocNoText : XTree :=
  XTree.mk "gap_analysis" [] none (XForest.ofList
    [XTree.mk "critical_gaps" [] none (XForest.ofList [gapChildX])])

/-- C6 counterexample: a `critical_gaps` node with no leading text (its
ElementTree `text` is `None`, falsy) but one typed `gap` child parses to an
empty gaps list although the sentinel `[NONE_IDENTIFIED]` appears nowhere —
the list is not forced empty "exactly when" the sentinel is present. -/
theorem c6_gaps_counterexample :
    (parseGapAnalysis gapDocNoText).gaps = [] ∧
    (gapDocNoText.findChild "critical_gaps").map
      (fun cg => (cg.findAllChildren "gap").length) = some 1 ∧
    (gapDocNoText.findChild "critical_gaps").map
      (fun cg => containsSub (cg.text.getD "") "[NONE_IDENTIFIED]") = some false := by
  refine ⟨by decide, by decide, by decide⟩

/-- C6 (amended): given the `critical_gaps` child, the parsed gaps list is
empty iff the node's leading text is falsy (absent or empty), or that text
contains the sentinel `[NONE_IDENTIFIED]`, or there are no `gap` children;
otherwise it is exactly the `gap` children in document order, each gap's
type read from the `type` attribute with default `"Unknown"`. -/
theorem c6_gap_analysis (root cg : XTree) (h : root.findChild "critical_gaps" = some cg) :
    ((parseGapAnalysis root).gaps = [] ↔
      (textTruthy cg.text = false ∨
       containsSub (cg.text.getD "") "[NONE_IDENTIFIED]" = true ∨
       cg.findAllChildren "gap" = [])) ∧
    (textTruthy cg.text = true →
      containsSub (cg.text.getD "") "[NONE_IDENTIFIED]" = false →
      (parseGapAnalysis root).gaps = (cg.findAllChildren "gap").map mkGap ∧
      ∀ g ∈ cg.findAllChildren "gap",
        (mkGap g).gap_type = g.getAttr "type" "Unknown" ∧
        (g.attrs.find? (fun p => p.1 = "type") = none →
          (mkGap g).gap_type = "Unknown")) := by
  have hgaps : (parseGapAnalysis root).gaps =
      if textTruthy cg.text = true ∧
          containsSub (cg.text.getD "") "[NONE_IDENTIFIED]" = false then
        (cg.findAllChildren "gap").map mkGap
      else [] := by
    unfold parseGapAnalysis
    rw [h]
  constructor
  · rw [hgaps]
    by_cases hc : textTruthy cg.text = true ∧
        containsSub (cg.text.getD "") "[NONE_IDENTIFIED]" = false
    · rw [if_pos hc]
      rw [List.map_eq_nil_iff]
      constructor
      · intro he
        exact Or.inr (Or.inr he)
      · intro he
        rcases he with h1 | h2 | h3
        · rw [hc.1] at h1
          exact Bool.noConfusion h1
        · rw [hc.2] at h2
          exact Bool.noConfusion h2
        · exact h3
    · rw [if_neg hc]
      simp only [true_iff]
      by_cases h1 : textTruthy cg.text = true
      · by_cases h2 : containsSub (cg.text.getD "") "[NONE_IDENTIFIED]" = false
        · exact absurd ⟨h1, h2⟩ hc
        · exact Or.inr (Or.inl (by simpa using h2))
      · exact Or.inl (by simpa using h1)
  · intro h1 h2
    rw [hgaps, if_pos ⟨h1, h2⟩]
    refine ⟨rfl, ?_⟩
    intro g _
    refine ⟨rfl, ?_⟩
    intro hfind
    show g.getAttr "type" "Unknown" = "Unknown"
    unfold XTree.getAttr
    rw [hfind]

def gapChildNoType : XTree := XTree.mk "gap" [] none XForest.nil

def criticalGapsText : XTree :=
  XTree.mk "critical_gaps" [] (some "listed") (XForest.ofList [gapChildNoType])

def gapDocText : XTree :=
  XTree.mk "gap_analysis" [] none (XForest.ofList [criticalGapsText])

theorem c6_gap_analysis_witness :
    (parseGapAnalysis gapDocText).gaps = (criticalGapsText.findAllChildren "gap").map mkGap ∧
    (mkGap gapChildNoType).gap_type = "Unknown" :=
  ⟨((c6_gap_analysis gapDocText criticalGapsText rfl).2 (by decide) (by decide)).1,
   (((c6_gap_analysis gapDocText criticalGapsText rfl).2 (by decide) (by decide)).2
     gapChildNoType (List.mem_singleton.mpr rfl)).2 (by decide)⟩

/-! ## Claim C9: the no-data guard of format/save -/

def emptyNotesDoc : XTree := XTree.mk "notes" [] none XForest.nil

/-- C9 counterexample: parsing a well-formed `notes` document with zero
`note` children succeeds, but `format` afterwards still raises the no-data
`ValueError` — the guard in `noter.py` tests `if not self.notes`, which
cannot distinguish "never parsed" from "parsed zero notes". -/
theorem c9_zero_notes_counterexample :
    ZProcessor.parse emptyNotesDoc "T" = .ok ⟨[]⟩ ∧
    ZProcessor.format ⟨[]⟩ "T" = .error "No notes parsed. Call parse() first." := by
  constructor
  · rfl
  · rfl

/-- C9 (amended): `format` and `save_individual` of the `noter.py` processor
raise the no-data error exactly when the notes list is empty — so always in
the initial (pre-parse) state, never after a parse that yielded at least one
note, but also after a successful parse that yielded zero notes. -/
theorem c9_format_guard (p : ZProcessor) (now : String) (fs : List String) (dir : String) :
    ZProcessor.format ZProcessor.init now =
      .error "No notes parsed. Call parse() first." ∧
    (ZProcessor.format p now = .error "No notes parsed. Call parse() first." ↔
      p.notes = []) ∧
    (p.notes ≠ [] → ZProcessor.format p now = .ok (formatNotes p.notes now)) ∧
    (ZProcessor.save_individual p fs dir =
        .error "No notes parsed. Call parse() first." ↔ p.notes = []) := by
  refine ⟨rfl, ?_, ?_, ?_⟩
  · unfold ZProcessor.format
    by_cases hn : p.notes = []
    · rw [if_pos hn]
      simp [hn]
    · rw [if_neg hn]
      simp [hn]
  · intro hn
    unfold ZProcessor.format
    rw [if_neg hn]
  · unfold ZProcessor.save_individual
    by_cases hn : p.notes = []
    · rw [if_pos hn]
      simp [hn]
    · rw [if_neg hn]
      simp [hn]

theorem c9_format_guard_witness :
    ZProcessor.format ⟨[mkNote 1 "T" noteElA]⟩ "T" =
      .ok (formatNotes [mkNote 1 "T" noteElA] "T") :=
  (c9_format_guard ⟨[mkNote 1 "T" noteElA]⟩ "T" [] "d").2.2.1 (by simp)

/-! ## Claim C5: the sanitizer -/

theorem matchFenceOpen_none (l : List Char) (h : '`' ∉ l) : matchFenceOpen l = none := by
  match l with
  | [] => rfl
  | [c1] => rfl
  | [c1, c2] => rfl
  | [c1, c2, c3] => rfl
  | [c1, c2, c3, c4] => rfl
  | c1 :: c2 :: c3 :: c4 :: c5 :: r =>
    have h1 : ¬(c1 = '`' ∧ c2 = '`' ∧ c3 = '`' ∧ c4 = 'x' ∧ c5 = 'm') := by
      intro hc
      exact h (by rw [← hc.1]; exact List.mem_cons_self _ _)
    simp only [matchFenceOpen, if_neg h1]

theorem matchFenceClose_none (l : List Char) (h : '`' ∉ l) : matchFenceClose l = none := by
  match l with
  | [] => rfl
  | [c1] => rfl
  | [c1, c2] => rfl
  | [c1, c2, c3] =>
    have h1 : ¬(c1 = '`' ∧ c2 = '`' ∧ c3 = '`') := by
      intro hc
      exact h (by rw [← hc.1]; exact List.mem_cons_self _ _)
    simp only [matchFenceClose, if_neg h1]
  | c1 :: c2 :: c3 :: c4 :: r =>
    have h1 : ¬(c1 = '\n' ∧ c2 = '`' ∧ c3 = '`' ∧ c4 = '`') := by
      intro hc
      exact h (by rw [← hc.2.1]; exact List.mem_cons_of_mem _ (List.mem_cons_self _ _))
    have h2 : ¬(c1 = '`' ∧ c2 = '`' ∧ c3 = '`') := by
      intro hc
      exact h (by rw [← hc.1]; exact List.mem_cons_self _ _)
    simp only [matchFenceClose, if_neg h1, if_neg h2]

theorem sub1Aux_no_tick (fuel : Nat) (b : Bool) (l : List Char)
    (h : ∀ c ∈ l, c ≠ '`') : sub1Aux fuel b l = l := by
  induction fuel generalizing b l with
  | zero => rfl
  | succ fuel ih =>
    match l with
    | [] => rfl
    | c :: rest =>
      have hno : '`' ∉ (c :: rest) := fun hm => h '`' hm rfl
      have hr : ∀ d ∈ rest, d ≠ '`' := fun d hd => h d (List.mem_cons_of_mem _ hd)
      by_cases hb : b
      · subst hb
        simp only [sub1Aux, if_true, matchFenceOpen_none _ hno]
        rw [ih _ rest hr]
      · simp only [Bool.not_eq_true] at hb
        subst hb
        simp only [sub1Aux, Bool.false_eq_true, if_false]
        rw [ih _ rest hr]

theorem sub2Aux_no_tick (fuel : Nat) (l : List Char)
    (h : ∀ c ∈ l, c ≠ '`') : sub2Aux fuel l = l := by
  induction fuel generalizing l with
  | zero => rfl
  | succ fuel ih =>
    match l with
    | [] => rfl
    | c :: rest =>
      have hno : '`' ∉ (c :: rest) := fun hm => h '`' hm rfl
      have hr : ∀ d ∈ rest, d ≠ '`' := fun d hd => h d (List.mem_cons_of_mem _ hd)
      simp only [sub2Aux, matchFenceClose_none _ hno]
      rw [ih rest hr]

theorem cleanXml_no_tick (t : String) (h : ∀ c ∈ t.data, c ≠ '`') :
    cleanXml t = pyStrip t := by
  show pyStrip (sub2Aux (sub1Aux t.data.length true t.data).length
      (sub1Aux t.data.length true t.data)).asString = pyStrip t
  rw [sub1Aux_no_tick _ _ _ h, sub2Aux_no_tick _ _ h]
  rfl

/-- C5 counterexample: the fence substitutions are applied at every line,
not only at the edges.  In `"a\n```xml\nb"` the leading line is `"a"` — not
a fence line — yet the sanitizer removes the interior fence line, changing
an interior line of the text. -/
theorem c5_interior_fence_counterexample :
    cleanXml "a\n```xml\nb" = "a\nb" ∧
    ¬ cleanXml "a\n```xml\nb" = "a\n```xml\nb" := by
  refine ⟨by decide, by decide⟩

/-- C5 (amended): the sanitizer removes every line-start fence-open match
and every line-end fence-close match wherever they occur (not at most one of
each at the edges) and then trims; on raw input containing no backtick it is
exactly the whitespace trim, and it is idempotent there. -/
theorem c5_clean_xml (t : String) (h : ∀ c ∈ t.data, c ≠ '`') :
    cleanXml t = pyStrip t ∧ cleanXml (cleanXml t) = cleanXml t := by
  have h1 := cleanXml_no_tick t h
  refine ⟨h1, ?_⟩
  rw [h1]
  have h2 : ∀ c ∈ (pyStrip t).data, c ≠ '`' := fun c hc => h c (mem_stripBy _ _ _ hc)
  rw [cleanXml_no_tick _ h2]
  show (stripBy isPyWs (stripBy isPyWs t.data)).asString = pyStrip t
  rw [stripBy_idem]
  rfl

theorem c5_clean_xml_witness :
    cleanXml "  <notes/>  " = pyStrip "  <notes/>  " ∧
    cleanXml (cleanXml "  <notes/>  ") = cleanXml "  <notes/>  " :=
  c5_clean_xml "  <notes/>  " (by decide)

/-! ## Claim C10: titles without word characters -/

theorem string_data_ext {x y : String} (h : x.data = y.data) : x = y := by
  cases x; cases y; simp_all

theorem get_filename_wordless (title : String)
    (h : ∀ c ∈ title.data, isWordChar c = false) : get_filename title = ".md" := by
  have h1 : ∀ c ∈ title.data.filter keepSlugChar, isPyWs c = true ∨ c = '-' := by
    intro c hc
    have h2 := List.mem_filter.mp hc
    have h3 := h c h2.1
    have h4 := h2.2
    unfold keepSlugChar at h4
    rw [h3] at h4
    simpa using h4
  have h5 : ∀ c ∈ collapseRuns isSpaceUnd '-' (title.data.filter keepSlugChar),
      c = '-' := by
    intro c hc
    rcases mem_collapseRunsAux _ _ _ _ _ hc with h6 | ⟨h7, h8⟩
    · exact h6
    · rcases h1 c h7 with h9 | h9
      · exfalso
        apply h8
        unfold isSpaceUnd
        rw [h9]
        rfl
      · exact h9
  have hall : ∀ c ∈ ((collapseRuns isSpaceUnd '-'
      (title.data.filter keepSlugChar)).map lowerChar).take 80, c = '-' := by
    intro c hc
    have hc2 := List.mem_of_mem_take hc
    rcases List.mem_map.mp hc2 with ⟨d, hd, hdc⟩
    have hd2 : d = '-' := h5 d hd
    subst hd2
    rw [← hdc]
    decide
  show (stripBy (fun d => d = '-') (((collapseRuns isSpaceUnd '-'
      (title.data.filter keepSlugChar)).map lowerChar).take 80)).asString ++ ".md" = ".md"
  rw [stripBy_eq_nil _ _ (fun c hc => by rw [hall c hc]; decide)]
  rfl

/-- C10: a note whose title has no word characters (letters, digits,
underscore) derives the bare-extension filename `".md"` — a hidden file
with an empty stem — and because `".md"` has no pathlib suffix, a second
such colliding note is saved as `".md_1"`, the counter appended after
`".md"` rather than before the extension. -/
theorem c10_bare_extension (n1 n2 : Note) (dir : String)
    (h1 : ∀ c ∈ n1.title.data, isWordChar c = false)
    (h2 : ∀ c ∈ n2.title.data, isWordChar c = false) :
    get_filename n1.title = ".md" ∧
    saveIndivAux dir [n1, n2] [] = [dir ++ "/" ++ ".md", dir ++ "/" ++ ".md_1"] := by
  have g1 := get_filename_wordless _ h1
  have g2 := get_filename_wordless _ h2
  refine ⟨g1, ?_⟩
  show choosePath [] dir (get_filename n1.title) ::
      choosePath [choosePath [] dir (get_filename n1.title)] dir (get_filename n2.title)
      :: [] = _
  rw [g1, g2]
  have hp1 : choosePath [] dir ".md" = dir ++ "/" ++ ".md" := by
    unfold choosePath
    rw [if_neg (by simp)]
  rw [hp1]
  have hstem : pathStem ".md" = ".md" := by decide
  have hsfx : pathSuffix ".md" = "" := by decide
  have hcand : dir ++ "/" ++ ".md" ++ "_" ++ natDec 1 ++ "" = dir ++ "/" ++ ".md_1" := by
    rw [show natDec 1 = "1" from by decide]
    apply string_data_ext
    simp [String.data_append]
  have hneq : dir ++ "/" ++ ".md" ++ "_" ++ natDec 1 ++ "" ≠ dir ++ "/" ++ ".md" := by
    rw [hcand]
    intro heq
    have := congrArg String.length heq
    simp only [String.length_append] at this
    have h4 : (".md_1" : String).length = 5 := by decide
    have h5 : ("/" : String).length = 1 := by decide
    have h6 : (".md" : String).length = 3 := by decide
    omega
  have hp2 : choosePath [dir ++ "/" ++ ".md"] dir ".md" = dir ++ "/" ++ ".md_1" := by
    unfold choosePath
    rw [if_pos (by simp)]
    rw [hstem, hsfx]
    show (if dir ++ "/" ++ ".md" ++ "_" ++ natDec 1 ++ "" ∈ [dir ++ "/" ++ ".md"]
        then _ else dir ++ "/" ++ ".md" ++ "_" ++ natDec 1 ++ "") = dir ++ "/" ++ ".md_1"
    rw [if_neg (by simpa using hneq)]
    exact hcand
  rw [hp2]

def qmarkNote : Note :=
  { title := "???", tags := [], mentions := [], connections := [], principle := ""
    content := "", evidence := "", why_it_matters := "", recall_question := "" }

def bangNote : Note :=
  { title := "!!!", tags := [], mentions := [], connections := [], principle := ""
    content := "", evidence := "", why_it_matters := "", recall_question := "" }

theorem c10_bare_extension_witness :
    get_filename qmarkNote.title = ".md" ∧
    saveIndivAux "out" [qmarkNote, bangNote] [] =
      ["out" ++ "/" ++ ".md", "out" ++ "/" ++ ".md_1"] :=
  c10_bare_extension qmarkNote bangNote "out" (by decide) (by decide)

/-! ## Claim C7: collision-free split save -/

theorem candName_inj (dir stem sfx : String) {j k : Nat}
    (h : dir ++ "/" ++ stem ++ "_" ++ natDec j ++ sfx =
         dir ++ "/" ++ stem ++ "_" ++ natDec k ++ sfx) : j = k := by
  apply natDec_inj
  exact string_append_left_cancel (string_append_right_cancel h)

theorem resolveLoop_shape (fs : List String) (dir stem sfx : String)
    (counter fuel : Nat) :
    ∃ k, counter ≤ k ∧
      resolveLoop fs dir stem sfx counter fuel =
        dir ++ "/" ++ stem ++ "_" ++ natDec k ++ sfx := by
  induction fuel generalizing counter with
  | zero => exact ⟨counter, Nat.le_refl _, rfl⟩
  | succ fuel ih =>
    by_cases hc : dir ++ "/" ++ stem ++ "_" ++ natDec counter ++ sfx ∈ fs
    · rw [show resolveLoop fs dir stem sfx counter (fuel + 1) =
          resolveLoop fs dir stem sfx (counter + 1) fuel from by
        simp only [resolveLoop, if_pos hc]]
      rcases ih (counter + 1) with ⟨k, hk, he⟩
      exact ⟨k, by omega, he⟩
    · exact ⟨counter, Nat.le_refl _, by simp only [resolveLoop, if_neg hc]⟩

theorem resolveLoop_not_mem (fs : List String) (dir stem sfx : String)
    (counter fuel : Nat)
    (h : ∃ t, t < fuel ∧
      dir ++ "/" ++ stem ++ "_" ++ natDec (counter + t) ++ sfx ∉ fs) :
    resolveLoop fs dir stem sfx counter fuel ∉ fs := by
  induction fuel generalizing counter with
  | zero =>
    rcases h with ⟨t, ht, _⟩
    omega
  | succ fuel ih =>
    by_cases hc : dir ++ "/" ++ stem ++ "_" ++ natDec counter ++ sfx ∈ fs
    · rw [show resolveLoop fs dir stem sfx counter (fuel + 1) =
          resolveLoop fs dir stem sfx (counter + 1) fuel from by
        simp only [resolveLoop, if_pos hc]]
      apply ih
      rcases h with ⟨t, ht, hfree⟩
      match t, ht, hfree with
      | 0, _, hfree => exact absurd hc (by simpa using hfree)
      | t + 1, ht, hfree =>
        refine ⟨t, by omega, ?_⟩
        rw [show counter + 1 + t = counter + (t + 1) by omega]
        exact hfree
    · simp only [resolveLoop, if_neg hc]
      exact hc

theorem exists_free_candidate (fs : List String) (dir stem sfx : String) :
    ∃ t, t < fs.length + 1 ∧
      dir ++ "/" ++ stem ++ "_" ++ natDec (1 + t) ++ sfx ∉ fs := by
  by_contra hcon
  push_neg at hcon
  have hsub : ((List.range (fs.length + 1)).map
      (fun t => dir ++ "/" ++ stem ++ "_" ++ natDec (1 + t) ++ sfx)) ⊆ fs := by
    intro x hx
    rcases List.mem_map.mp hx with ⟨t, ht, hxe⟩
    rw [← hxe]
    exact hcon t (List.mem_range.mp ht)
  have hinj : Function.Injective
      (fun t => dir ++ "/" ++ stem ++ "_" ++ natDec (1 + t) ++ sfx) := by
    intro a b hab
    have := candName_inj dir stem sfx hab
    omega
  have hnd := (List.nodup_range (fs.length + 1)).map hinj
  have hle := (hnd.subperm hsub).length_le
  simp only [List.length_map, List.length_range] at hle
  omega

theorem choosePath_not_mem (fs : List String) (dir filename : String) :
    choosePath fs dir filename ∉ fs := by
  by_cases hc : dir ++ "/" ++ filename ∈ fs
  · simp only [choosePath, if_pos hc]
    exact resolveLoop_not_mem fs dir _ _ 1 (fs.length + 1)
      (exists_free_candidate fs dir _ _)
  · simp only [choosePath, if_neg hc]
    exact hc

theorem choosePath_shape (fs : List String) (dir filename : String) :
    choosePath fs dir filename = dir ++ "/" ++ filename ∨
    ∃ k, 1 ≤ k ∧ choosePath fs dir filename =
      dir ++ "/" ++ pathStem filename ++ "_" ++ natDec k ++ pathSuffix filename := by
  by_cases hc : dir ++ "/" ++ filename ∈ fs
  · right
    simp only [choosePath, if_pos hc]
    exact resolveLoop_shape fs dir _ _ 1 (fs.length + 1)
  · left
    simp only [choosePath, if_neg hc]

theorem saveIndivAux_length (dir : String) (notes : List Note) (fs : List String) :
    (saveIndivAux dir notes fs).length = notes.length := by
  induction notes generalizing fs with
  | nil => rfl
  | cons n rest ih => simp [saveIndivAux, ih]

theorem saveIndivAux_not_mem (dir : String) (notes : List Note) (fs : List String) :
    ∀ q ∈ saveIndivAux dir notes fs, q ∉ fs := by
  induction notes generalizing fs with
  | nil => intro q hq; simp [saveIndivAux] at hq
  | cons n rest ih =>
    intro q hq
    rcases List.mem_cons.mp hq with h1 | h1
    · rw [h1]
      exact choosePath_not_mem _ _ _
    · intro hqfs
      exact ih _ q h1 (List.mem_cons_of_mem _ hqfs)

theorem saveIndivAux_pairwise (dir : String) (notes : List Note) (fs : List String) :
    (saveIndivAux dir notes fs).Pairwise (fun a b => a ≠ b) := by
  induction notes generalizing fs with
  | nil => exact List.Pairwise.nil
  | cons n rest ih =>
    apply List.Pairwise.cons
    · intro q hq he
      exact saveIndivAux_not_mem dir rest _ q hq (he ▸ List.mem_cons_self _ _)
    · exact ih _

theorem saveIndivAux_get (dir : String) (notes : List Note) (fs : List String)
    (i : Nat) (hi : i < notes.length) :
    (saveIndivAux dir notes fs).get ⟨i, by rw [saveIndivAux_length]; exact hi⟩ =
      dir ++ "/" ++ get_filename ((notes.get ⟨i, hi⟩).title) ∨
    ∃ k, 1 ≤ k ∧
      (saveIndivAux dir notes fs).get ⟨i, by rw [saveIndivAux_length]; exact hi⟩ =
        dir ++ "/" ++ pathStem (get_filename ((notes.get ⟨i, hi⟩).title)) ++ "_" ++
          natDec k ++ pathSuffix (get_filename ((notes.get ⟨i, hi⟩).title)) := by
  induction notes generalizing fs i with
  | nil => exact absurd hi (by simp)
  | cons n rest ih =>
    cases i with
    | zero => exact choosePath_shape fs dir (get_filename n.title)
    | succ j =>
      have hj : j < rest.length := by simpa using hi
      exact ih _ j hj

theorem pathStem_append_suffix (name : String) : pathStem name ++ pathSuffix name = name := by
  unfold pathStem pathSuffix pathSplitExt
  by_cases h1 : (name.data.reverse.takeWhile (fun c => c ≠ '.')).length = name.data.length
  · rw [if_pos h1]
    show name ++ "" = name
    exact string_data_ext (by simp [String.data_append])
  · rw [if_neg h1]
    by_cases h2 : 0 < name.data.length - 1 -
        (name.data.reverse.takeWhile (fun c => c ≠ '.')).length ∧
        name.data.length - 1 - (name.data.reverse.takeWhile (fun c => c ≠ '.')).length <
          name.data.length - 1
    · rw [if_pos h2]
      show (name.data.take _).asString ++ (name.data.drop _).asString = name
      rw [asString_append, List.take_append_drop]
      rfl
    · rw [if_neg h2]
      show name ++ "" = name
      exact string_data_ext (by simp [String.data_append])

theorem save_collision_pair (dir : String) (n1 n2 : Note)
    (h : get_filename n1.title = get_filename n2.title) :
    saveIndivAux dir [n1, n2] [] =
      [dir ++ "/" ++ get_filename n1.title,
       dir ++ "/" ++ pathStem (get_filename n1.title) ++ "_1" ++
         pathSuffix (get_filename n1.title)] := by
  show choosePath [] dir (get_filename n1.title) ::
      choosePath [choosePath [] dir (get_filename n1.title)] dir (get_filename n2.title)
      :: [] = _
  rw [← h]
  have hp1 : choosePath [] dir (get_filename n1.title) =
      dir ++ "/" ++ get_filename n1.title := by
    simp only [choosePath]
    rw [if_neg (by simp)]
  rw [hp1]
  have hlen : (get_filename n1.title).length =
      (pathStem (get_filename n1.title)).length +
        (pathSuffix (get_filename n1.title)).length := by
    have := congrArg String.length (pathStem_append_suffix (get_filename n1.title))
    simp only [String.length_append] at this
    omega
  have hneq : dir ++ "/" ++ pathStem (get_filename n1.title) ++ "_" ++ natDec 1 ++
      pathSuffix (get_filename n1.title) ≠ dir ++ "/" ++ get_filename n1.title := by
    intro he
    have h2 := congrArg String.length he
    rw [show natDec 1 = "1" from by decide] at h2
    simp only [String.length_append] at h2
    have h3 : ("_" : String).length = 1 := by decide
    have h4 : ("1" : String).length = 1 := by decide
    omega
  have hp2 : choosePath [dir ++ "/" ++ get_filename n1.title] dir (get_filename n1.title) =
      dir ++ "/" ++ pathStem (get_filename n1.title) ++ "_1" ++
        pathSuffix (get_filename n1.title) := by
    simp only [choosePath]
    rw [if_pos (by simp)]
    show (if dir ++ "/" ++ pathStem (get_filename n1.title) ++ "_" ++ natDec 1 ++
        pathSuffix (get_filename n1.title) ∈ [dir ++ "/" ++ get_filename n1.title]
      then _
      else dir ++ "/" ++ pathStem (get_filename n1.title) ++ "_" ++ natDec 1 ++
        pathSuffix (get_filename n1.title)) = _
    rw [if_neg (by simpa using hneq)]
    rw [show natDec 1 = "1" from by decide]
    apply string_data_ext
    simp [String.data_append]
  rw [hp2]

/-- C7: `save_individual` never overwrites: every saved path is absent from
the pre-existing filesystem and the saved paths are pairwise distinct; the
list of final paths is in note order (the i-th path derives from the i-th
note's filename, either untouched or with a `_k` counter, `k ≥ 1`, inserted
between stem and extension); and two notes deriving the same base filename
produce two distinct files, the second suffixed `_1`. -/
theorem c7_save_individual (dir : String) (notes : List Note) (fs0 : List String) :
    (saveIndivAux dir notes fs0).length = notes.length ∧
    (∀ p ∈ saveIndivAux dir notes fs0, p ∉ fs0) ∧
    (saveIndivAux dir notes fs0).Pairwise (fun a b => a ≠ b) ∧
    (∀ i (hi : i < notes.length),
      (saveIndivAux dir notes fs0).get ⟨i, by rw [saveIndivAux_length]; exact hi⟩ =
        dir ++ "/" ++ get_filename ((notes.get ⟨i, hi⟩).title) ∨
      ∃ k, 1 ≤ k ∧
        (saveIndivAux dir notes fs0).get ⟨i, by rw [saveIndivAux_length]; exact hi⟩ =
          dir ++ "/" ++ pathStem (get_filename ((notes.get ⟨i, hi⟩).title)) ++ "_" ++
            natDec k ++ pathSuffix (get_filename ((notes.get ⟨i, hi⟩).title))) ∧
    (∀ n1 n2 : Note, get_filename n1.title = get_filename n2.title →
      saveIndivAux dir [n1, n2] [] =
        [dir ++ "/" ++ get_filename n1.title,
         dir ++ "/" ++ pathStem (get_filename n1.title) ++ "_1" ++
           pathSuffix (get_filename n1.title)]) :=
  ⟨saveIndivAux_length dir notes fs0,
   saveIndivAux_not_mem dir notes fs0,
   saveIndivAux_pairwise dir notes fs0,
   fun i hi => saveIndivAux_get dir notes fs0 i hi,
   fun n1 n2 h => save_collision_pair dir n1 n2 h⟩

def dupNoteA : Note :=
  { title := "Same Note", tags := [], mentions := [], connections := []
    principle := "", content := "", evidence := "", why_it_matters := ""
    recall_question := "" }

def dupNoteB : Note :=
  { title := "Same Note", tags := ["x"], mentions := [], connections := []
    principle := "", content := "", evidence := "", why_it_matters := ""
    recall_question := "" }

theorem c7_save_individual_witness :
    (saveIndivAux "out" [dupNoteA, dupNoteB] [] =
      ["out" ++ "/" ++ get_filename dupNoteA.title,
       "out" ++ "/" ++ pathStem (get_filename dupNoteA.title) ++ "_1" ++
         pathSuffix (get_filename dupNoteA.title)]) ∧
    (∀ p ∈ saveIndivAux "out" [dupNoteA, dupNoteB] ["out/pre.md"],
      p ∉ ["out/pre.md"]) :=
  ⟨(c7_save_individual "out" [dupNoteA, dupNoteB] []).2.2.2.2 dupNoteA dupNoteB rfl,
   (c7_save_individual "out" [dupNoteA, dupNoteB] ["out/pre.md"]).2.1⟩
